import Mathlib

/-!
Verification of `pkg/storage/ingest/pusher.go` (the `pusherConsumer` batch
ingestion pipeline).

The Go code consumes an ordered batch of records, each holding a tenant id
and serialized bytes.  `consume` starts `unmarshalRequests` as a goroutine
that decodes records in order and hands each `parsedRecord` to
`pushRequests` over an unbuffered channel; `pushRequests` pushes each decoded
payload to the storage sink, classifies push errors into client/server,
updates metrics and returns the first server-classified error (wrapped with
the record index and tenant id) or `nil`.

The embedding has two layers:
* a sequential functional model (`unmarshalRequests`, `pushRequests`,
  `consume`) of the per-record processing, used for the observable-behaviour
  claims, and
* a small-step operational model (`Pipeline.Step`) of the two tasks and the
  capacity-zero handoff channel, used for the concurrency, cancellation and
  ordering claims.

External collaborators (the protobuf `Unmarshal`, the sink's
`PushToStorage`, `mimirpb.IsClientError`, the `shouldLog` sampling policy
and the wall clock) are parameters of the model, matching the spec's
treatment of them as opaque interfaces.
-/

/-- Modelled from the spec: the `record` struct (defined outside this file in
the same package) — "Record: {tenantID: string, content: opaque bytes}".
`pusher.go` accesses exactly the fields `tenantID` and `content`.
`Content` is the opaque byte-blob type. -/
structure record (Content : Type) where
  tenantID : String
  content : Content
deriving Repr, DecidableEq

/-- Modelled from the spec: a Go `context.Context` as far as this core uses
it for values — "attach the tenant id to the push-time context (explicit
per-call scoping)".  `user.InjectOrgID` sets the org-id value. -/
structure Context where
  orgID : Option String
deriving Repr, DecidableEq

/-- Modelled from the spec: `user.InjectOrgID(ctx, tenantID)` returns a
child context carrying the tenant id. -/
def injectOrgID (ctx : Context) (tenant : String) : Context :=
  { ctx with orgID := some tenant }

/-- Go error values as this file builds them: `base` is an opaque error
coming from a collaborator (`Unmarshal` or `PushToStorage`), `wrap` is
`errors.Wrap(err, msg)`, and `consumeErr idx tenant e` is
`fmt.Errorf("consuming record at index %d for tenant %s: %w", idx, tenant, e)`. -/
inductive PErr (E : Type) where
  | base : E → PErr E
  | wrap : String → PErr E → PErr E
  | consumeErr : Nat → String → PErr E → PErr E
deriving Repr, DecidableEq

/-- The `parsedRecord` struct of `pusher.go`: the (always allocated) write
request container, the tenant id, and the decode error if any.  In Go the
`WriteRequest` pointer is always non-nil — `Unmarshal` fills the fresh
container in place and separately reports an error — so `writeRequest`
is a plain `Payload` here. -/
structure parsedRecord (Payload E : Type) where
  writeRequest : Payload
  tenantID : String
  err : Option (PErr E)
deriving Repr, DecidableEq

/-- Log entries emitted by `pushRequests`, carrying exactly the dynamic
key/value data the Go `Log` calls pass:
* `decodeError e` is `level.Error(l).Log("msg", "failed to parse write
  request; skipping", "err", e)` — note it carries only the error;
* `clientPushWarn e user` is `level.Warn(l).Log("msg", "detected a client
  error while ingesting write request (the request may have been partially
  ingested)", "err", e, "user", user)`. -/
inductive LogEvent (E : Type) where
  | decodeError : PErr E → LogEvent E
  | clientPushWarn : E → String → LogEvent E
deriving Repr, DecidableEq

/-- The observable state accumulated by the pusher stage: the three
Prometheus counters, the list of processing-time observations (abstract
clock ticks, in order), the emitted log entries (in order), and the trace
of sink invocations `(context, payload)` (in order). -/
structure PusherObs (Payload E : Type) where
  clientErrRequests : Nat
  serverErrRequests : Nat
  totalRequests : Nat
  processingTimeObservations : List Nat
  logs : List (LogEvent E)
  pushes : List (Context × Payload)
deriving Repr, DecidableEq

/-- The fresh observable state: all counters zero, nothing observed,
logged or pushed. -/
def PusherObs.init (Payload E : Type) : PusherObs Payload E :=
  { clientErrRequests := 0
    serverErrRequests := 0
    totalRequests := 0
    processingTimeObservations := []
    logs := []
    pushes := [] }

/-- The `pusherConsumer` struct together with its external collaborators:
`p` is the sink's `PushToStorage` (taking the tenant-scoped context and the
payload), `unmarshal` is `WriteRequest.Unmarshal` filling a fresh container
and possibly reporting an error, `isClientError` is `mimirpb.IsClientError`,
`shouldLogPolicy` is the `shouldLog(ctx, err, elapsed)` sampling policy, and
`elapsed n` is the wall-clock duration measured around the `n`-th sink
invocation (an abstract clock indexed by the number of earlier pushes). -/
structure pusherConsumer (Content Payload E : Type) where
  p : Context → Payload → Option E
  unmarshal : Content → Payload × Option E
  isClientError : E → Bool
  shouldLogPolicy : Context → E → Nat → Bool
  elapsed : Nat → Nat

variable {Content Payload E : Type}

/-- One iteration of the loop body of `unmarshalRequests`: build a
`parsedRecord` with the tenant id and a freshly allocated `WriteRequest`,
run `Unmarshal` on the record content, and on failure record
`errors.Wrap(err, "parsing ingest consumer write request")` on the unit. -/
def unmarshalRecord (c : pusherConsumer Content Payload E) (r : record Content) :
    parsedRecord Payload E :=
  let res := c.unmarshal r.content
  { writeRequest := res.1
    tenantID := r.tenantID
    err := res.2.map fun e => PErr.wrap "parsing ingest consumer write request" (PErr.base e) }

/-- The decoding performed by `unmarshalRequests` over a whole batch, in
order: one `parsedRecord` per input `record`.  (Channel handoff and
cancellation are modelled separately by `Pipeline.Step`.) -/
def unmarshalRequests (c : pusherConsumer Content Payload E)
    (records : List (record Content)) : List (parsedRecord Payload E) :=
  records.map (unmarshalRecord c)

/-- One iteration of the loop body of `pushRequests` for the received unit
`wr` at (zero-based) record index `recordIdx`:
* if the unit carries a decode error, log it at error level and continue
  (no push, no metric);
* otherwise inject the tenant id into the context, invoke the sink, then
  observe the elapsed time and increment the total counter regardless of
  outcome; a client-classified error bumps the client counter and is warn
  logged iff `shouldLog` says so; a server-classified error bumps the
  server counter and aborts with the wrapped error.
Returns `(some fatalErr, obs)` on abort and `(none, obs)` to continue. -/
def pushOne (c : pusherConsumer Content Payload E) (ctx : Context) (recordIdx : Nat)
    (wr : parsedRecord Payload E) (s : PusherObs Payload E) :
    Option (PErr E) × PusherObs Payload E :=
  match wr.err with
  | some e => (none, { s with logs := s.logs ++ [LogEvent.decodeError e] })
  | none =>
    let pctx := injectOrgID ctx wr.tenantID
    let pushErr := c.p pctx wr.writeRequest
    let elapsedTime := c.elapsed s.pushes.length
    let s1 : PusherObs Payload E :=
      { s with
        pushes := s.pushes ++ [(pctx, wr.writeRequest)]
        processingTimeObservations := s.processingTimeObservations ++ [elapsedTime]
        totalRequests := s.totalRequests + 1 }
    match pushErr with
    | none => (none, s1)
    | some e =>
      if c.isClientError e then
        let s2 := { s1 with clientErrRequests := s1.clientErrRequests + 1 }
        if c.shouldLogPolicy pctx e elapsedTime then
          (none, { s2 with logs := s2.logs ++ [LogEvent.clientPushWarn e wr.tenantID] })
        else
          (none, s2)
      else
        (some (PErr.consumeErr recordIdx wr.tenantID (PErr.base e)),
          { s1 with serverErrRequests := s1.serverErrRequests + 1 })

/-- The receive loop of `pushRequests`: process the units in order starting
at record index `recordIdx`, stopping at the first fatal (server-classified)
error.  Go initialises `recordIdx` to `-1` and increments at the top of the
loop, so the first unit is processed at index 0. -/
def pushLoop (c : pusherConsumer Content Payload E) (ctx : Context) :
    List (parsedRecord Payload E) → Nat → PusherObs Payload E →
    Option (PErr E) × PusherObs Payload E
  | [], _, s => (none, s)
  | wr :: rest, recordIdx, s =>
    match pushOne c ctx recordIdx wr s with
    | (some e, s1) => (some e, s1)
    | (none, s1) => pushLoop c ctx rest (recordIdx + 1) s1

/-- `pushRequests`: drain the (already decoded, in-order) units starting
from a fresh observable state; return the fatal error, or `none` on normal
completion, together with the final observable state. -/
def pushRequests (c : pusherConsumer Content Payload E) (ctx : Context)
    (prs : List (parsedRecord Payload E)) : Option (PErr E) × PusherObs Payload E :=
  pushLoop c ctx prs 0 (PusherObs.init Payload E)

/-- `consume`: the sequential denotation of the two-stage pipeline — decode
every record in order and run the pusher loop over the decoded units.  The
small-step model `Pipeline.Step` below shows the concurrent composition has
exactly these observables. -/
def consume (c : pusherConsumer Content Payload E) (ctx : Context)
    (records : List (record Content)) : Option (PErr E) × PusherObs Payload E :=
  pushRequests c ctx (unmarshalRequests c records)

namespace Pipeline

/-- State of the `unmarshalRequests` goroutine:
* `run rest` — at the top of the `for` loop with `rest` still to process;
* `offering pr rest` — built `pr` and blocked at the `select`, racing the
  channel send against `ctx.Done()`;
* `closed` — returned (the deferred `close(recC)` has run). -/
inductive DecSt (Content Payload E : Type) where
  | run : List (record Content) → DecSt Content Payload E
  | offering : parsedRecord Payload E → List (record Content) → DecSt Content Payload E
  | closed : DecSt Content Payload E
deriving Repr, DecidableEq

/-- Control state of the `pushRequests` callee: blocked at
`for wr := range reqC` awaiting a unit, or returned with its result. -/
inductive PushCtl (E : Type) where
  | awaiting : PushCtl E
  | returned : Option (PErr E) → PushCtl E
deriving Repr, DecidableEq

/-- Global state of one `consume` invocation: the two tasks, the pusher's
accumulated observables, the (ghost) in-order list of units that crossed
the channel, the cancellation cause of the derived context, and `consume`'s
return value once it has returned. -/
structure St (Content Payload E : Type) where
  decoder : DecSt Content Payload E
  pusher : PushCtl E
  obs : PusherObs Payload E
  delivered : List (parsedRecord Payload E)
  cancelCause : Option String
  consumeResult : Option (Option (PErr E))
deriving Repr, DecidableEq

/-- The state right after `consume` spawned the goroutine: decoder at the
top of its loop with the whole batch, pusher awaiting the first unit,
fresh observables, nothing delivered, derived context not yet cancelled. -/
def init (records : List (record Content)) : St Content Payload E :=
  { decoder := DecSt.run records
    pusher := PushCtl.awaiting
    obs := PusherObs.init Payload E
    delivered := []
    cancelCause := none
    consumeResult := none }

/-- Small-step semantics of one `consume` invocation.  The decoder and the
pusher interact only at the capacity-zero channel, so the pusher's local
processing of a received unit is folded into the rendezvous step
(`handoff`); the decoder's steps are decoding the next record
(`unmarshalNext`), returning after the batch is exhausted (`closeChannel`),
and losing the `select` race to `ctx.Done()` (`cancelOffer`).
`channelClosed` is the pusher's `range` loop observing the closed channel,
and `consumeReturn` is `consume` returning: its deferred
`cancel(cancellation.NewErrorf("done consuming records"))` runs on that
exit path, whatever it is. -/
inductive Step (c : pusherConsumer Content Payload E) (ctx : Context) :
    St Content Payload E → St Content Payload E → Prop where
  | unmarshalNext (s : St Content Payload E) (r : record Content)
      (rest : List (record Content)) :
      s.decoder = DecSt.run (r :: rest) →
      Step c ctx s { s with decoder := DecSt.offering (unmarshalRecord c r) rest }
  | closeChannel (s : St Content Payload E) :
      s.decoder = DecSt.run [] →
      Step c ctx s { s with decoder := DecSt.closed }
  | cancelOffer (s : St Content Payload E) (pr : parsedRecord Payload E)
      (rest : List (record Content)) (cause : String) :
      s.decoder = DecSt.offering pr rest →
      s.cancelCause = some cause →
      Step c ctx s { s with decoder := DecSt.closed }
  | handoff (s : St Content Payload E) (pr : parsedRecord Payload E)
      (rest : List (record Content)) :
      s.decoder = DecSt.offering pr rest →
      s.pusher = PushCtl.awaiting →
      Step c ctx s
        { s with
          decoder := DecSt.run rest
          delivered := s.delivered ++ [pr]
          pusher :=
            match (pushOne c ctx s.delivered.length pr s.obs).1 with
            | some e => PushCtl.returned (some e)
            | none => PushCtl.awaiting
          obs := (pushOne c ctx s.delivered.length pr s.obs).2 }
  | channelClosed (s : St Content Payload E) :
      s.decoder = DecSt.closed →
      s.pusher = PushCtl.awaiting →
      Step c ctx s { s with pusher := PushCtl.returned none }
  | consumeReturn (s : St Content Payload E) (res : Option (PErr E)) :
      s.pusher = PushCtl.returned res →
      s.consumeResult = none →
      Step c ctx s
        { s with
          cancelCause := some "done consuming records"
          consumeResult := some res }

/-- States reachable from the start of a `consume` invocation on `records`. -/
def Reachable (c : pusherConsumer Content Payload E) (ctx : Context)
    (records : List (record Content)) (s : St Content Payload E) : Prop :=
  Relation.ReflTransGen (Step c ctx) (init records) s

/-- A state with no enabled step: both tasks and the call are finished. -/
def Terminal (c : pusherConsumer Content Payload E) (ctx : Context)
    (s : St Content Payload E) : Prop :=
  ∀ s2 : St Content Payload E, ¬ Step c ctx s s2

end Pipeline

/-! Characterisations of a run of `pushRequests`, derived from the batch
and the collaborators alone (no threaded metric state).  These are the
yardsticks the claim theorems compare `consume` against. -/

/-- The sink invocation `pushRequests` makes for a well-formed record `r`:
the tenant-scoped context and the decoded payload. -/
def sinkCall (c : pusherConsumer Content Payload E) (ctx : Context) (r : record Content) :
    Context × Payload :=
  (injectOrgID ctx r.tenantID, (c.unmarshal r.content).1)

/-- The error (if any) the sink returns for record `r`'s push. -/
def pushOutcome (c : pusherConsumer Content Payload E) (ctx : Context) (r : record Content) :
    Option E :=
  c.p (injectOrgID ctx r.tenantID) (c.unmarshal r.content).1

/-- Whether record `r` decodes successfully. -/
def decodeOkB (c : pusherConsumer Content Payload E) (r : record Content) : Bool :=
  ((c.unmarshal r.content).2).isNone

/-- The records whose push is actually attempted, in order: decode failures
are skipped, and a server-classified push error ends the batch with the
failing record as the last attempted one. -/
def attemptedRecords (c : pusherConsumer Content Payload E) (ctx : Context) :
    List (record Content) → List (record Content)
  | [] => []
  | r :: rest =>
    match (c.unmarshal r.content).2 with
    | some _ => attemptedRecords c ctx rest
    | none =>
      match pushOutcome c ctx r with
      | none => r :: attemptedRecords c ctx rest
      | some e =>
        if c.isClientError e then r :: attemptedRecords c ctx rest
        else [r]

/-- The first server-classified push failure in the batch, scanning from
record index `i`: its batch index, tenant id and sink error.  Decode
failures and client-classified push errors are passed over. -/
def firstServerError (c : pusherConsumer Content Payload E) (ctx : Context) :
    List (record Content) → Nat → Option (Nat × String × E)
  | [], _ => none
  | r :: rest, i =>
    match (c.unmarshal r.content).2 with
    | some _ => firstServerError c ctx rest (i + 1)
    | none =>
      match pushOutcome c ctx r with
      | none => firstServerError c ctx rest (i + 1)
      | some e =>
        if c.isClientError e then firstServerError c ctx rest (i + 1)
        else some (i, r.tenantID, e)

/-! Case lemmas for one loop iteration of `pushRequests` on a decoded unit. -/

lemma pushOne_decodeFail (c : pusherConsumer Content Payload E) (ctx : Context)
    (i : Nat) (r : record Content) (s : PusherObs Payload E) (e : E)
    (h : (c.unmarshal r.content).2 = some e) :
    pushOne c ctx i (unmarshalRecord c r) s =
      (none, { s with logs := s.logs ++
        [LogEvent.decodeError (PErr.wrap "parsing ingest consumer write request" (PErr.base e))] }) := by
  simp [pushOne, unmarshalRecord, h]

lemma pushOne_pushOk (c : pusherConsumer Content Payload E) (ctx : Context)
    (i : Nat) (r : record Content) (s : PusherObs Payload E)
    (h1 : (c.unmarshal r.content).2 = none)
    (h2 : pushOutcome c ctx r = none) :
    pushOne c ctx i (unmarshalRecord c r) s =
      (none, { s with
        pushes := s.pushes ++ [sinkCall c ctx r]
        processingTimeObservations :=
          s.processingTimeObservations ++ [c.elapsed s.pushes.length]
        totalRequests := s.totalRequests + 1 }) := by
  simp [pushOne, unmarshalRecord, h1, pushOutcome] at h2 ⊢
  simp [h2, sinkCall]

lemma pushOne_clientErr (c : pusherConsumer Content Payload E) (ctx : Context)
    (i : Nat) (r : record Content) (s : PusherObs Payload E) (e : E)
    (h1 : (c.unmarshal r.content).2 = none)
    (h2 : pushOutcome c ctx r = some e)
    (h3 : c.isClientError e = true) :
    pushOne c ctx i (unmarshalRecord c r) s =
      (none, { s with
        pushes := s.pushes ++ [sinkCall c ctx r]
        processingTimeObservations :=
          s.processingTimeObservations ++ [c.elapsed s.pushes.length]
        totalRequests := s.totalRequests + 1
        clientErrRequests := s.clientErrRequests + 1
        logs := s.logs ++
          (if c.shouldLogPolicy (injectOrgID ctx r.tenantID) e (c.elapsed s.pushes.length) then
            [LogEvent.clientPushWarn e r.tenantID]
          else []) }) := by
  simp [pushOutcome] at h2
  by_cases hl : c.shouldLogPolicy (injectOrgID ctx r.tenantID) e (c.elapsed s.pushes.length) <;>
    simp [pushOne, unmarshalRecord, h1, h2, h3, hl, sinkCall]

lemma pushOne_serverErr (c : pusherConsumer Content Payload E) (ctx : Context)
    (i : Nat) (r : record Content) (s : PusherObs Payload E) (e : E)
    (h1 : (c.unmarshal r.content).2 = none)
    (h2 : pushOutcome c ctx r = some e)
    (h3 : c.isClientError e = false) :
    pushOne c ctx i (unmarshalRecord c r) s =
      (some (PErr.consumeErr i r.tenantID (PErr.base e)), { s with
        pushes := s.pushes ++ [sinkCall c ctx r]
        processingTimeObservations :=
          s.processingTimeObservations ++ [c.elapsed s.pushes.length]
        totalRequests := s.totalRequests + 1
        serverErrRequests := s.serverErrRequests + 1 }) := by
  simp [pushOutcome] at h2
  simp [pushOne, unmarshalRecord, h1, h2, h3, sinkCall]

/-- Splitting the receive loop at a list append: the suffix is processed
only if the prefix did not abort, and record indices keep counting. -/
lemma pushLoop_append (c : pusherConsumer Content Payload E) (ctx : Context)
    (l1 l2 : List (parsedRecord Payload E)) (i : Nat) (s : PusherObs Payload E) :
    pushLoop c ctx (l1 ++ l2) i s =
      match pushLoop c ctx l1 i s with
      | (some e, s1) => (some e, s1)
      | (none, s1) => pushLoop c ctx l2 (i + l1.length) s1 := by
  induction l1 generalizing i s with
  | nil => simp [pushLoop]
  | cons wr rest ih =>
    show pushLoop c ctx (wr :: (rest ++ l2)) i s = _
    simp only [pushLoop]
    rcases h : pushOne c ctx i wr s with ⟨res, s1⟩
    cases res with
    | none =>
      dsimp only
      rw [ih]
      simp only [List.length_cons]
      have harith : i + 1 + rest.length = i + (rest.length + 1) := by omega
      rw [harith]
    | some e => rfl

/-- The value `pushRequests` returns is exactly the first server-classified
push error, wrapped with its batch index and tenant id; `none` otherwise. -/
lemma pushLoop_result (c : pusherConsumer Content Payload E) (ctx : Context) :
    ∀ (records : List (record Content)) (i : Nat) (s : PusherObs Payload E),
    (pushLoop c ctx (records.map (unmarshalRecord c)) i s).1 =
      (firstServerError c ctx records i).map
        (fun x => PErr.consumeErr x.1 x.2.1 (PErr.base x.2.2))
  | [], i, s => by simp [pushLoop, firstServerError]
  | r :: rest, i, s => by
    simp only [List.map_cons, pushLoop]
    rcases hd : (c.unmarshal r.content).2 with _ | e
    · rcases hp : pushOutcome c ctx r with _ | e
      · rw [pushOne_pushOk c ctx i r s hd hp]
        simp only [firstServerError, hd, hp]
        exact pushLoop_result c ctx rest (i + 1) _
      · rcases hc : c.isClientError e with _ | _
        · rw [pushOne_serverErr c ctx i r s e hd hp hc]
          simp [firstServerError, hd, hp, hc]
        · rw [pushOne_clientErr c ctx i r s e hd hp hc]
          simp only [firstServerError, hd, hp, hc, if_true]
          exact pushLoop_result c ctx rest (i + 1) _
    · rw [pushOne_decodeFail c ctx i r s e hd]
      simp only [firstServerError, hd]
      exact pushLoop_result c ctx rest (i + 1) _

/-- The trace of sink invocations the receive loop makes: one per attempted
record, in order, each with the tenant-scoped context and decoded payload. -/
lemma pushLoop_pushes (c : pusherConsumer Content Payload E) (ctx : Context) :
    ∀ (records : List (record Content)) (i : Nat) (s : PusherObs Payload E),
    (pushLoop c ctx (records.map (unmarshalRecord c)) i s).2.pushes =
      s.pushes ++ (attemptedRecords c ctx records).map (sinkCall c ctx)
  | [], i, s => by simp [pushLoop, attemptedRecords]
  | r :: rest, i, s => by
    simp only [List.map_cons, pushLoop]
    rcases hd : (c.unmarshal r.content).2 with _ | e
    · rcases hp : pushOutcome c ctx r with _ | e
      · rw [pushOne_pushOk c ctx i r s hd hp]
        simp only [attemptedRecords, hd, hp, List.map_cons]
        rw [pushLoop_pushes c ctx rest (i + 1) _]
        simp
      · rcases hc : c.isClientError e with _ | _
        · rw [pushOne_serverErr c ctx i r s e hd hp hc]
          simp [attemptedRecords, hd, hp, hc]
        · rw [pushOne_clientErr c ctx i r s e hd hp hc]
          simp only [attemptedRecords, hd, hp, hc, if_true, List.map_cons]
          rw [pushLoop_pushes c ctx rest (i + 1) _]
          simp
    · rw [pushOne_decodeFail c ctx i r s e hd]
      simp only [attemptedRecords, hd]
      rw [pushLoop_pushes c ctx rest (i + 1) _]

/-- The total-requests counter advances once per attempted record. -/
lemma pushLoop_total (c : pusherConsumer Content Payload E) (ctx : Context) :
    ∀ (records : List (record Content)) (i : Nat) (s : PusherObs Payload E),
    (pushLoop c ctx (records.map (unmarshalRecord c)) i s).2.totalRequests =
      s.totalRequests + (attemptedRecords c ctx records).length
  | [], i, s => by simp [pushLoop, attemptedRecords]
  | r :: rest, i, s => by
    simp only [List.map_cons, pushLoop]
    rcases hd : (c.unmarshal r.content).2 with _ | e
    · rcases hp : pushOutcome c ctx r with _ | e
      · rw [pushOne_pushOk c ctx i r s hd hp]
        simp only [attemptedRecords, hd, hp, List.length_cons]
        rw [pushLoop_total c ctx rest (i + 1) _]
        simp; omega
      · rcases hc : c.isClientError e with _ | _
        · rw [pushOne_serverErr c ctx i r s e hd hp hc]
          simp [attemptedRecords, hd, hp, hc]
        · rw [pushOne_clientErr c ctx i r s e hd hp hc]
          simp only [attemptedRecords, hd, hp, hc, if_true, List.length_cons]
          rw [pushLoop_total c ctx rest (i + 1) _]
          simp; omega
    · rw [pushOne_decodeFail c ctx i r s e hd]
      simp only [attemptedRecords, hd]
      rw [pushLoop_total c ctx rest (i + 1) _]

/-- A processing-time observation is recorded once per attempted record. -/
lemma pushLoop_obsLen (c : pusherConsumer Content Payload E) (ctx : Context) :
    ∀ (records : List (record Content)) (i : Nat) (s : PusherObs Payload E),
    (pushLoop c ctx (records.map (unmarshalRecord c)) i s).2.processingTimeObservations.length =
      s.processingTimeObservations.length + (attemptedRecords c ctx records).length
  | [], i, s => by simp [pushLoop, attemptedRecords]
  | r :: rest, i, s => by
    simp only [List.map_cons, pushLoop]
    rcases hd : (c.unmarshal r.content).2 with _ | e
    · rcases hp : pushOutcome c ctx r with _ | e
      · rw [pushOne_pushOk c ctx i r s hd hp]
        simp only [attemptedRecords, hd, hp, List.length_cons]
        rw [pushLoop_obsLen c ctx rest (i + 1) _]
        simp; omega
      · rcases hc : c.isClientError e with _ | _
        · rw [pushOne_serverErr c ctx i r s e hd hp hc]
          simp [attemptedRecords, hd, hp, hc]
        · rw [pushOne_clientErr c ctx i r s e hd hp hc]
          simp only [attemptedRecords, hd, hp, hc, if_true, List.length_cons]
          rw [pushLoop_obsLen c ctx rest (i + 1) _]
          simp; omega
    · rw [pushOne_decodeFail c ctx i r s e hd]
      simp only [attemptedRecords, hd]
      rw [pushLoop_obsLen c ctx rest (i + 1) _]

/-- When no push fails, no server error is found. -/
lemma firstServerError_noPushErr (c : pusherConsumer Content Payload E) (ctx : Context) :
    ∀ (records : List (record Content)) (i : Nat),
    (∀ r ∈ records, pushOutcome c ctx r = none) →
    firstServerError c ctx records i = none
  | [], _, _ => rfl
  | r :: rest, i, h => by
    have hr := h r (List.mem_cons_self r rest)
    have hrest := firstServerError_noPushErr c ctx rest (i + 1)
      (fun x hx => h x (List.mem_cons_of_mem r hx))
    rcases hd : (c.unmarshal r.content).2 with _ | e
    · simp [firstServerError, hd, hr, hrest]
    · simp [firstServerError, hd, hrest]

/-- Without a server error the attempted records are exactly the records
that decode. -/
lemma attemptedRecords_noServer (c : pusherConsumer Content Payload E) (ctx : Context) :
    ∀ (records : List (record Content)) (i : Nat),
    firstServerError c ctx records i = none →
    attemptedRecords c ctx records = records.filter (fun r => decodeOkB c r)
  | [], _, _ => rfl
  | r :: rest, i, h => by
    rcases hd : (c.unmarshal r.content).2 with _ | e
    · rcases hp : pushOutcome c ctx r with _ | e
      · simp only [firstServerError, hd, hp] at h
        simp [attemptedRecords, hd, hp, decodeOkB,
          attemptedRecords_noServer c ctx rest (i + 1) h]
      · rcases hc : c.isClientError e with _ | _
        · simp [firstServerError, hd, hp, hc] at h
        · simp only [firstServerError, hd, hp, hc, if_true] at h
          simp [attemptedRecords, hd, hp, hc, decodeOkB,
            attemptedRecords_noServer c ctx rest (i + 1) h]
    · simp only [firstServerError, hd] at h
      simp [attemptedRecords, hd, decodeOkB,
        attemptedRecords_noServer c ctx rest (i + 1) h]

/-- With a first server error at batch index `k` (scanning from `i`), the
attempted records are the decoding records among the first `k + 1 - i`. -/
lemma attemptedRecords_server (c : pusherConsumer Content Payload E) (ctx : Context) :
    ∀ (records : List (record Content)) (i k : Nat) (t : String) (e : E),
    firstServerError c ctx records i = some (k, t, e) →
    i ≤ k ∧
      attemptedRecords c ctx records =
        (records.take (k + 1 - i)).filter (fun r => decodeOkB c r)
  | [], i, k, t, e, h => by simp [firstServerError] at h
  | r :: rest, i, k, t, e, h => by
    rcases hd : (c.unmarshal r.content).2 with _ | e2
    · rcases hp : pushOutcome c ctx r with _ | e2
      · simp only [firstServerError, hd, hp] at h
        obtain ⟨hik, hrec⟩ := attemptedRecords_server c ctx rest (i + 1) k t e h
        refine ⟨by omega, ?_⟩
        have htake : k + 1 - i = (k + 1 - (i + 1)) + 1 := by omega
        rw [htake, List.take_succ_cons]
        simp [attemptedRecords, hd, hp, decodeOkB, hrec]
      · rcases hc : c.isClientError e2 with _ | _
        · simp only [firstServerError, hd, hp, hc, Bool.false_eq_true, if_false,
            Option.some.injEq, Prod.mk.injEq] at h
          obtain ⟨rfl, rfl, rfl⟩ := h
          refine ⟨Nat.le_refl i, ?_⟩
          have htake : i + 1 - i = 1 := by omega
          rw [htake]
          simp [attemptedRecords, hd, hp, hc, decodeOkB, List.take_succ_cons]
        · simp only [firstServerError, hd, hp, hc, if_true] at h
          obtain ⟨hik, hrec⟩ := attemptedRecords_server c ctx rest (i + 1) k t e h
          refine ⟨by omega, ?_⟩
          have htake : k + 1 - i = (k + 1 - (i + 1)) + 1 := by omega
          rw [htake, List.take_succ_cons]
          simp [attemptedRecords, hd, hp, hc, decodeOkB, hrec]
    · simp only [firstServerError, hd] at h
      obtain ⟨hik, hrec⟩ := attemptedRecords_server c ctx rest (i + 1) k t e h
      refine ⟨by omega, ?_⟩
      have htake : k + 1 - i = (k + 1 - (i + 1)) + 1 := by omega
      rw [htake, List.take_succ_cons]
      simp [attemptedRecords, hd, decodeOkB, hrec]

/-- A reported first server error at batch index `k` (scanning from `i`)
points at a real record of the batch: the record at position `k - i` of the
remaining list decodes fine, its push fails, and the failure is not
client-classified; the reported tenant id is that record's. -/
lemma firstServerError_some (c : pusherConsumer Content Payload E) (ctx : Context) :
    ∀ (records : List (record Content)) (i k : Nat) (t : String) (e : E),
    firstServerError c ctx records i = some (k, t, e) →
    i ≤ k ∧ ∃ r, records[k - i]? = some r ∧ r.tenantID = t ∧
      (c.unmarshal r.content).2 = none ∧ pushOutcome c ctx r = some e ∧
      c.isClientError e = false
  | [], i, k, t, e, h => by simp [firstServerError] at h
  | r :: rest, i, k, t, e, h => by
    have tailStep : firstServerError c ctx rest (i + 1) = some (k, t, e) →
        i ≤ k ∧ ∃ r2, (r :: rest)[k - i]? = some r2 ∧ r2.tenantID = t ∧
          (c.unmarshal r2.content).2 = none ∧ pushOutcome c ctx r2 = some e ∧
          c.isClientError e = false := by
      intro h2
      obtain ⟨hik, r2, hget, hrest⟩ := firstServerError_some c ctx rest (i + 1) k t e h2
      refine ⟨by omega, r2, ?_, hrest⟩
      have hidx : k - i = (k - (i + 1)) + 1 := by omega
      rw [hidx, List.getElem?_cons_succ]
      exact hget
    rcases hd : (c.unmarshal r.content).2 with _ | e2
    · rcases hp : pushOutcome c ctx r with _ | e2
      · simp only [firstServerError, hd, hp] at h
        exact tailStep h
      · rcases hc : c.isClientError e2 with _ | _
        · simp only [firstServerError, hd, hp, hc, Bool.false_eq_true, if_false,
            Option.some.injEq, Prod.mk.injEq] at h
          obtain ⟨rfl, rfl, rfl⟩ := h
          exact ⟨Nat.le_refl i, r, by simp [hd, hp, hc]⟩
        · simp only [firstServerError, hd, hp, hc, if_true] at h
          exact tailStep h
    · simp only [firstServerError, hd] at h
      exact tailStep h

/-- The log entries of a run in which every push succeeds: exactly one
error-level decode-failure entry per record that fails to decode, in order,
each carrying the wrapped decode error (and nothing else). -/
lemma pushLoop_logs_noPushErr (c : pusherConsumer Content Payload E) (ctx : Context) :
    ∀ (records : List (record Content)) (i : Nat) (s : PusherObs Payload E),
    (∀ r ∈ records, pushOutcome c ctx r = none) →
    (pushLoop c ctx (records.map (unmarshalRecord c)) i s).2.logs =
      s.logs ++ records.filterMap (fun r => ((c.unmarshal r.content).2).map
        (fun e => LogEvent.decodeError
          (PErr.wrap "parsing ingest consumer write request" (PErr.base e))))
  | [], i, s, _ => by simp [pushLoop]
  | r :: rest, i, s, h => by
    have hr := h r (List.mem_cons_self r rest)
    have hrest := fun x hx => h x (List.mem_cons_of_mem r hx)
    simp only [List.map_cons, pushLoop]
    rcases hd : (c.unmarshal r.content).2 with _ | e
    · rw [pushOne_pushOk c ctx i r s hd hr]
      dsimp only
      rw [pushLoop_logs_noPushErr c ctx rest (i + 1) _ hrest]
      simp [List.filterMap_cons, hd]
    · rw [pushOne_decodeFail c ctx i r s e hd]
      dsimp only
      rw [pushLoop_logs_noPushErr c ctx rest (i + 1) _ hrest]
      simp [List.filterMap_cons, hd]

/-- The processing-time observations made by `n` consecutive successful
pushes when `base` pushes happened before: consecutive clock reads. -/
def obsTicks (c : pusherConsumer Content Payload E) (base : Nat) : Nat → List Nat
  | 0 => []
  | n + 1 => c.elapsed base :: obsTicks c (base + 1) n

/-- Full state after a segment in which every record decodes and every push
succeeds: one sink call, one time observation and one total-counter tick per
record, in order; error counters and logs untouched; no abort. -/
lemma pushLoop_clean (c : pusherConsumer Content Payload E) (ctx : Context) :
    ∀ (records : List (record Content)) (i : Nat) (s : PusherObs Payload E),
    (∀ r ∈ records, (c.unmarshal r.content).2 = none ∧ pushOutcome c ctx r = none) →
    pushLoop c ctx (records.map (unmarshalRecord c)) i s =
      (none, { s with
        pushes := s.pushes ++ records.map (sinkCall c ctx)
        processingTimeObservations := s.processingTimeObservations ++
          obsTicks c s.pushes.length records.length
        totalRequests := s.totalRequests + records.length })
  | [], i, s, _ => by simp [pushLoop, obsTicks]
  | r :: rest, i, s, h => by
    have hr := h r (List.mem_cons_self r rest)
    simp only [List.map_cons, pushLoop]
    rw [pushOne_pushOk c ctx i r s hr.1 hr.2]
    dsimp only
    rw [pushLoop_clean c ctx rest (i + 1) _ (fun x hx => h x (List.mem_cons_of_mem r hx))]
    simp only [Prod.mk.injEq, true_and, PusherObs.mk.injEq, List.length_cons,
      List.length_append, List.length_singleton, List.length_nil, List.map_cons,
      List.append_assoc, List.singleton_append, obsTicks]
    refine ⟨by omega, trivial⟩

/-- C9: For an empty batch, `consume` returns nil, the Storage Sink's push
operation is never invoked, and none of the observability signals (client
error counter, server-error counter, total-attempted counter,
processing-time distribution) is touched. -/
theorem consume_empty_batch (c : pusherConsumer Content Payload E) (ctx : Context) :
    (consume c ctx ([] : List (record Content))).1 = none ∧
    (consume c ctx ([] : List (record Content))).2.pushes = [] ∧
    (consume c ctx ([] : List (record Content))).2 = PusherObs.init Payload E :=
  ⟨rfl, rfl, rfl⟩

/-- C1: For every batch of records that all decode successfully, with a sink
whose push always returns nil, `consume` returns nil and the sink's push is
invoked exactly once per record, in batch order, the i-th invocation carrying
the i-th record's decoded payload and a context into which that record's
tenant id has been injected per call. -/
theorem consume_wellFormed_sink_receives_all
    (c : pusherConsumer Content Payload E) (ctx : Context)
    (records : List (record Content))
    (hdec : ∀ r ∈ records, (c.unmarshal r.content).2 = none)
    (hpush : ∀ (pctx : Context) (p : Payload), c.p pctx p = none) :
    (consume c ctx records).1 = none ∧
    (consume c ctx records).2.pushes =
      records.map (fun r => (injectOrgID ctx r.tenantID, (c.unmarshal r.content).1)) ∧
    (consume c ctx records).2.pushes.length = records.length := by
  have hout : ∀ r ∈ records, pushOutcome c ctx r = none := fun r _ => hpush _ _
  have hfse := firstServerError_noPushErr c ctx records 0 hout
  have hres : (consume c ctx records).1 = none := by
    show (pushLoop c ctx (records.map (unmarshalRecord c)) 0 (PusherObs.init Payload E)).1 = none
    rw [pushLoop_result, hfse, Option.map_none']
  have hfilter : records.filter (fun r => decodeOkB c r) = records :=
    List.filter_eq_self.mpr (fun r hr => by simp [decodeOkB, hdec r hr])
  have hpushes : (consume c ctx records).2.pushes =
      records.map (fun r => (injectOrgID ctx r.tenantID, (c.unmarshal r.content).1)) := by
    show (pushLoop c ctx (records.map (unmarshalRecord c)) 0 (PusherObs.init Payload E)).2.pushes = _
    rw [pushLoop_pushes, attemptedRecords_noServer c ctx records 0 hfse, hfilter]
    rfl
  exact ⟨hres, hpushes, by rw [hpushes, List.length_map]⟩

/-- C2: `consume` returns nil exactly when no push is server-classified as
failing; when the first server-classified push failure is at batch index `k`,
`consume` returns the push error wrapped with `k` and that record's tenant
id, and the sink is invoked precisely for the decoding records among indices
0..k — never for any index greater than `k`.  No other error source exists:
the return value is fully determined by the first server error. -/
theorem consume_error_iff_firstServerError
    (c : pusherConsumer Content Payload E) (ctx : Context)
    (records : List (record Content)) :
    ((consume c ctx records).1 = none ↔ firstServerError c ctx records 0 = none) ∧
    (∀ (k : Nat) (t : String) (e : E), firstServerError c ctx records 0 = some (k, t, e) →
      (consume c ctx records).1 = some (PErr.consumeErr k t (PErr.base e)) ∧
      (consume c ctx records).2.pushes =
        ((records.take (k + 1)).filter (fun r => decodeOkB c r)).map (sinkCall c ctx)) := by
  have hres : (consume c ctx records).1 =
      (firstServerError c ctx records 0).map
        (fun x => PErr.consumeErr x.1 x.2.1 (PErr.base x.2.2)) := by
    show (pushLoop c ctx (records.map (unmarshalRecord c)) 0 (PusherObs.init Payload E)).1 = _
    exact pushLoop_result c ctx records 0 _
  constructor
  · rw [hres]
    exact Option.map_eq_none'
  · intro k t e h
    obtain ⟨-, hatt⟩ := attemptedRecords_server c ctx records 0 k t e h
    refine ⟨by rw [hres, h]; rfl, ?_⟩
    show (pushLoop c ctx (records.map (unmarshalRecord c)) 0 (PusherObs.init Payload E)).2.pushes = _
    rw [pushLoop_pushes, hatt]
    rfl

/-- C5: For every batch and every pattern of push outcomes, the final value
of the total-attempted counter equals the number of records that reached an
actual push attempt, and exactly one processing-time observation is recorded
per push attempt; without a server error the attempted records are exactly
the decoding ones, and with a first server error at batch index `k` they are
the decoding ones among indices 0..k — so the aborting push itself is still
counted and decode-skipped or never-consumed records are not. -/
theorem consume_total_counts_attempts
    (c : pusherConsumer Content Payload E) (ctx : Context)
    (records : List (record Content)) :
    (consume c ctx records).2.totalRequests = (attemptedRecords c ctx records).length ∧
    (consume c ctx records).2.processingTimeObservations.length =
      (attemptedRecords c ctx records).length ∧
    (firstServerError c ctx records 0 = none →
      attemptedRecords c ctx records = records.filter (fun r => decodeOkB c r)) ∧
    (∀ (k : Nat) (t : String) (e : E), firstServerError c ctx records 0 = some (k, t, e) →
      attemptedRecords c ctx records =
        (records.take (k + 1)).filter (fun r => decodeOkB c r)) := by
  refine ⟨?_, ?_, attemptedRecords_noServer c ctx records 0,
    fun k t e h => (attemptedRecords_server c ctx records 0 k t e h).2⟩
  · show (pushLoop c ctx (records.map (unmarshalRecord c)) 0
      (PusherObs.init Payload E)).2.totalRequests = _
    rw [pushLoop_total]
    simp [PusherObs.init]
  · show (pushLoop c ctx (records.map (unmarshalRecord c)) 0
      (PusherObs.init Payload E)).2.processingTimeObservations.length = _
    rw [pushLoop_obsLen]
    simp [PusherObs.init]

/-- C10: The record index wrapped into a server-error return is the failing
record's zero-based position in the original batch — the pusher's diagnostic
index advances for every received unit, decode-skipped ones included — so the
record at that batch position decodes successfully, its push returns the
wrapped error, and that error is not client-classified; the wrapped tenant id
is that record's. -/
theorem consume_error_index_is_batch_position
    (c : pusherConsumer Content Payload E) (ctx : Context)
    (records : List (record Content)) (k : Nat) (t : String) (pe : PErr E)
    (h : (consume c ctx records).1 = some (PErr.consumeErr k t pe)) :
    ∃ (r : record Content) (e : E), records[k]? = some r ∧ pe = PErr.base e ∧
      r.tenantID = t ∧ (c.unmarshal r.content).2 = none ∧
      pushOutcome c ctx r = some e ∧ c.isClientError e = false := by
  have hres : (consume c ctx records).1 =
      (firstServerError c ctx records 0).map
        (fun x => PErr.consumeErr x.1 x.2.1 (PErr.base x.2.2)) := by
    show (pushLoop c ctx (records.map (unmarshalRecord c)) 0 (PusherObs.init Payload E)).1 = _
    exact pushLoop_result c ctx records 0 _
  rw [hres] at h
  rcases hfse : firstServerError c ctx records 0 with _ | x
  · rw [hfse] at h
    simp at h
  · rw [hfse] at h
    obtain ⟨k2, t2, e2⟩ := x
    simp only [Option.map_some', Option.some.injEq, PErr.consumeErr.injEq] at h
    obtain ⟨rfl, rfl, rfl⟩ := h
    obtain ⟨-, r, hget, hrt, hdec, hout, hcl⟩ :=
      firstServerError_some c ctx records 0 k2 t2 e2 hfse
    exact ⟨r, e2, by simpa using hget, rfl, hrt, hdec, hout, hcl⟩

/-- A concrete instantiation of the collaborators over `Nat` content,
payloads and errors: content `666` fails to decode (error `1`), any other
content decodes to itself; pushing payload `999` fails with error `7`
(server-classified), payload `500` fails with error `3` (client-classified),
anything else succeeds; warnings are always log-worthy; the clock reads
`n + 10` around the `n`-th push. -/
def demo : pusherConsumer Nat Nat Nat where
  p := fun _ payload => if payload = 999 then some 7 else if payload = 500 then some 3 else none
  unmarshal := fun content => if content = 666 then (0, some 1) else (content, none)
  isClientError := fun e => e = 3
  shouldLogPolicy := fun _ e _ => e = 3
  elapsed := fun n => n + 10

/-- Like `demo`, but with a sink whose push always succeeds. -/
def demoOk : pusherConsumer Nat Nat Nat where
  p := fun _ _ => none
  unmarshal := fun content => if content = 666 then (0, some 1) else (content, none)
  isClientError := fun e => e = 3
  shouldLogPolicy := fun _ e _ => e = 3
  elapsed := fun n => n + 10

/-- C3, counterexample to "that log entry references index k": two batches
whose only decode failure sits at different indices (0 in the first batch,
1 in the second) produce byte-for-byte identical log output, because the
decode-failure log call passes only the message and the wrapped decode
error — so the emitted entry cannot reference the failing index. -/
theorem decodeFailLog_omits_index :
    (consume demoOk ⟨none⟩ [⟨"A", 666⟩, ⟨"B", 1⟩]).2.logs =
      (consume demoOk ⟨none⟩ [⟨"A", 1⟩, ⟨"B", 666⟩]).2.logs ∧
    (demoOk.unmarshal 666).2 = some 1 ∧
    (demoOk.unmarshal 1).2 = none := by
  refine ⟨?_, by decide, by decide⟩
  decide

/-- C3 (amended): For a batch in which exactly the record at index `k` (the
one between `pre` and `post`) fails to decode and every push succeeds, the
sink receives one push per other record with order preserved (`k` skipped),
no push-related metric is touched for the failed record (total counter and
processing-time observation count are both `N − 1`), and exactly one
error-level log entry is emitted, carrying the wrapped decode error — the
entry does not reference the record's index. -/
theorem consume_decodeFail_skipped
    (c : pusherConsumer Content Payload E) (ctx : Context)
    (pre post : List (record Content)) (rk : record Content) (e : E)
    (hpre : ∀ r ∈ pre, (c.unmarshal r.content).2 = none)
    (hpost : ∀ r ∈ post, (c.unmarshal r.content).2 = none)
    (hk : (c.unmarshal rk.content).2 = some e)
    (hpush : ∀ (pctx : Context) (p : Payload), c.p pctx p = none) :
    (consume c ctx (pre ++ rk :: post)).1 = none ∧
    (consume c ctx (pre ++ rk :: post)).2.pushes =
      (pre ++ post).map (sinkCall c ctx) ∧
    (consume c ctx (pre ++ rk :: post)).2.totalRequests = pre.length + post.length ∧
    (consume c ctx (pre ++ rk :: post)).2.processingTimeObservations.length =
      pre.length + post.length ∧
    (consume c ctx (pre ++ rk :: post)).2.logs =
      [LogEvent.decodeError
        (PErr.wrap "parsing ingest consumer write request" (PErr.base e))] := by
  have hout : ∀ r ∈ pre ++ rk :: post, pushOutcome c ctx r = none := fun r _ => hpush _ _
  have hfse := firstServerError_noPushErr c ctx (pre ++ rk :: post) 0 hout
  have hfilter : (pre ++ rk :: post).filter (fun r => decodeOkB c r) = pre ++ post := by
    rw [List.filter_append, List.filter_cons,
      List.filter_eq_self.mpr (fun r hr => by simp [decodeOkB, hpre r hr]),
      List.filter_eq_self.mpr (fun r hr => by simp [decodeOkB, hpost r hr])]
    simp [decodeOkB, hk]
  have hatt := attemptedRecords_noServer c ctx (pre ++ rk :: post) 0 hfse
  refine ⟨?_, ?_, ?_, ?_, ?_⟩
  · show (pushLoop c ctx ((pre ++ rk :: post).map (unmarshalRecord c)) 0
      (PusherObs.init Payload E)).1 = none
    rw [pushLoop_result, hfse, Option.map_none']
  · show (pushLoop c ctx ((pre ++ rk :: post).map (unmarshalRecord c)) 0
      (PusherObs.init Payload E)).2.pushes = _
    rw [pushLoop_pushes, hatt, hfilter]
    rfl
  · show (pushLoop c ctx ((pre ++ rk :: post).map (unmarshalRecord c)) 0
      (PusherObs.init Payload E)).2.totalRequests = _
    rw [pushLoop_total, hatt, hfilter]
    simp [PusherObs.init]
  · show (pushLoop c ctx ((pre ++ rk :: post).map (unmarshalRecord c)) 0
      (PusherObs.init Payload E)).2.processingTimeObservations.length = _
    rw [pushLoop_obsLen, hatt, hfilter]
    simp [PusherObs.init]
  · show (pushLoop c ctx ((pre ++ rk :: post).map (unmarshalRecord c)) 0
      (PusherObs.init Payload E)).2.logs = _
    rw [pushLoop_logs_noPushErr c ctx (pre ++ rk :: post) 0 _ hout]
    rw [List.filterMap_append, List.filterMap_cons]
    rw [List.filterMap_eq_nil_iff.mpr (fun r hr => by simp [hpre r hr]),
      List.filterMap_eq_nil_iff.mpr (fun r hr => by simp [hpost r hr])]
    simp [PusherObs.init, hk]

/-- C4: For a batch in which every record decodes, every push succeeds except
the one at index `k` (the record between `pre` and `post`), and that push
fails with a client-classified error, `consume` returns nil, pushes continue
for every later index (the sink receives all `N` calls in order), the
client-error counter ends at exactly 1, and a warning log entry is emitted
for that error if and only if the externally supplied log-worthiness policy —
given the tenant-scoped push context, the error and the elapsed push time —
says yes. -/
theorem consume_clientError_continues
    (c : pusherConsumer Content Payload E) (ctx : Context)
    (pre post : List (record Content)) (rk : record Content) (e : E)
    (hpre : ∀ r ∈ pre, (c.unmarshal r.content).2 = none ∧ pushOutcome c ctx r = none)
    (hpost : ∀ r ∈ post, (c.unmarshal r.content).2 = none ∧ pushOutcome c ctx r = none)
    (hk1 : (c.unmarshal rk.content).2 = none)
    (hk2 : pushOutcome c ctx rk = some e)
    (hk3 : c.isClientError e = true) :
    (consume c ctx (pre ++ rk :: post)).1 = none ∧
    (consume c ctx (pre ++ rk :: post)).2.pushes =
      (pre ++ rk :: post).map (sinkCall c ctx) ∧
    (consume c ctx (pre ++ rk :: post)).2.clientErrRequests = 1 ∧
    (consume c ctx (pre ++ rk :: post)).2.logs =
      (if c.shouldLogPolicy (injectOrgID ctx rk.tenantID) e (c.elapsed pre.length) then
        [LogEvent.clientPushWarn e rk.tenantID] else []) := by
  have hfull : consume c ctx (pre ++ rk :: post) =
      (none,
        { clientErrRequests := 1
          serverErrRequests := 0
          totalRequests := pre.length + 1 + post.length
          processingTimeObservations :=
            obsTicks c 0 pre.length ++ c.elapsed pre.length ::
              obsTicks c (pre.length + 1) post.length
          logs := (if c.shouldLogPolicy (injectOrgID ctx rk.tenantID) e
              (c.elapsed pre.length) then [LogEvent.clientPushWarn e rk.tenantID] else [])
          pushes := pre.map (sinkCall c ctx) ++ sinkCall c ctx rk ::
              post.map (sinkCall c ctx) }) := by
    show pushLoop c ctx ((pre ++ rk :: post).map (unmarshalRecord c)) 0
      (PusherObs.init Payload E) = _
    rw [List.map_append, pushLoop_append, pushLoop_clean c ctx pre 0 _ hpre]
    dsimp only
    simp only [List.map_cons, pushLoop]
    rw [pushOne_clientErr c ctx _ rk _ e hk1 hk2 hk3]
    dsimp only
    rw [pushLoop_clean c ctx post _ _ hpost]
    simp [PusherObs.init, List.length_append, List.length_map]
  rw [hfull]
  refine ⟨rfl, ?_, rfl, rfl⟩
  simp [List.map_append]

/-- Witness for C1 on a concrete two-record batch. -/
theorem consume_wellFormed_sink_receives_all_witness :
    (consume demoOk ⟨none⟩ [⟨"A", 1⟩, ⟨"B", 2⟩]).1 = none ∧
    (consume demoOk ⟨none⟩ [⟨"A", 1⟩, ⟨"B", 2⟩]).2.pushes =
      ([⟨"A", 1⟩, ⟨"B", 2⟩] : List (record Nat)).map
        (fun r => (injectOrgID ⟨none⟩ r.tenantID, (demoOk.unmarshal r.content).1)) ∧
    (consume demoOk ⟨none⟩ [⟨"A", 1⟩, ⟨"B", 2⟩]).2.pushes.length =
      ([⟨"A", 1⟩, ⟨"B", 2⟩] : List (record Nat)).length :=
  consume_wellFormed_sink_receives_all demoOk ⟨none⟩ [⟨"A", 1⟩, ⟨"B", 2⟩]
    (by decide) (fun _ _ => rfl)

/-- Witness for C2 on a concrete batch whose push at batch index 2 fails
with a server-classified error (after a decode failure at index 1). -/
theorem consume_error_iff_firstServerError_witness :
    (consume demo ⟨none⟩ [⟨"A", 1⟩, ⟨"B", 666⟩, ⟨"C", 999⟩, ⟨"D", 4⟩]).1 =
      some (PErr.consumeErr 2 "C" (PErr.base 7)) ∧
    (consume demo ⟨none⟩ [⟨"A", 1⟩, ⟨"B", 666⟩, ⟨"C", 999⟩, ⟨"D", 4⟩]).2.pushes =
      ((([⟨"A", 1⟩, ⟨"B", 666⟩, ⟨"C", 999⟩, ⟨"D", 4⟩] : List (record Nat)).take 3).filter
        (fun r => decodeOkB demo r)).map (sinkCall demo ⟨none⟩) :=
  (consume_error_iff_firstServerError demo ⟨none⟩
    [⟨"A", 1⟩, ⟨"B", 666⟩, ⟨"C", 999⟩, ⟨"D", 4⟩]).2 2 "C" 7 (by decide)

/-- Witness for C3 (amended) on a concrete batch whose middle record fails
to decode. -/
theorem consume_decodeFail_skipped_witness :
    (consume demoOk ⟨none⟩ [⟨"A", 1⟩, ⟨"B", 666⟩, ⟨"C", 2⟩]).1 = none ∧
    (consume demoOk ⟨none⟩ [⟨"A", 1⟩, ⟨"B", 666⟩, ⟨"C", 2⟩]).2.pushes =
      ([⟨"A", 1⟩, ⟨"C", 2⟩] : List (record Nat)).map (sinkCall demoOk ⟨none⟩) ∧
    (consume demoOk ⟨none⟩ [⟨"A", 1⟩, ⟨"B", 666⟩, ⟨"C", 2⟩]).2.totalRequests = 2 ∧
    (consume demoOk ⟨none⟩
      [⟨"A", 1⟩, ⟨"B", 666⟩, ⟨"C", 2⟩]).2.processingTimeObservations.length = 2 ∧
    (consume demoOk ⟨none⟩ [⟨"A", 1⟩, ⟨"B", 666⟩, ⟨"C", 2⟩]).2.logs =
      [LogEvent.decodeError
        (PErr.wrap "parsing ingest consumer write request" (PErr.base 1))] := by
  have h := consume_decodeFail_skipped demoOk ⟨none⟩ [⟨"A", 1⟩] [⟨"C", 2⟩] ⟨"B", 666⟩ 1
    (by decide) (by decide) (by decide) (fun _ _ => rfl)
  simpa using h

/-- Witness for C4 on a concrete batch whose middle push fails with a
client-classified error. -/
theorem consume_clientError_continues_witness :
    (consume demo ⟨none⟩ [⟨"A", 1⟩, ⟨"B", 500⟩, ⟨"C", 4⟩]).1 = none ∧
    (consume demo ⟨none⟩ [⟨"A", 1⟩, ⟨"B", 500⟩, ⟨"C", 4⟩]).2.pushes =
      ([⟨"A", 1⟩, ⟨"B", 500⟩, ⟨"C", 4⟩] : List (record Nat)).map (sinkCall demo ⟨none⟩) ∧
    (consume demo ⟨none⟩ [⟨"A", 1⟩, ⟨"B", 500⟩, ⟨"C", 4⟩]).2.clientErrRequests = 1 ∧
    (consume demo ⟨none⟩ [⟨"A", 1⟩, ⟨"B", 500⟩, ⟨"C", 4⟩]).2.logs =
      (if demo.shouldLogPolicy (injectOrgID ⟨none⟩ "B") 3 (demo.elapsed 1) then
        [LogEvent.clientPushWarn 3 "B"] else []) := by
  have h := consume_clientError_continues demo ⟨none⟩ [⟨"A", 1⟩] [⟨"C", 4⟩] ⟨"B", 500⟩ 3
    (by decide) (by decide) (by decide) (by decide) (by decide)
  simpa using h

/-- Witness for C5 on the concrete batch of the C2 witness: two attempted
pushes (the decode failure at index 1 skipped, the aborting server-error
push at index 2 still counted, index 3 never consumed). -/
theorem consume_total_counts_attempts_witness :
    (consume demo ⟨none⟩ [⟨"A", 1⟩, ⟨"B", 666⟩, ⟨"C", 999⟩, ⟨"D", 4⟩]).2.totalRequests =
      (attemptedRecords demo ⟨none⟩ [⟨"A", 1⟩, ⟨"B", 666⟩, ⟨"C", 999⟩, ⟨"D", 4⟩]).length ∧
    (consume demo ⟨none⟩
      [⟨"A", 1⟩, ⟨"B", 666⟩, ⟨"C", 999⟩, ⟨"D", 4⟩]).2.processingTimeObservations.length =
      (attemptedRecords demo ⟨none⟩ [⟨"A", 1⟩, ⟨"B", 666⟩, ⟨"C", 999⟩, ⟨"D", 4⟩]).length ∧
    attemptedRecords demo ⟨none⟩ [⟨"A", 1⟩, ⟨"B", 666⟩, ⟨"C", 999⟩, ⟨"D", 4⟩] =
      ((([⟨"A", 1⟩, ⟨"B", 666⟩, ⟨"C", 999⟩, ⟨"D", 4⟩] : List (record Nat)).take 3).filter
        (fun r => decodeOkB demo r)) :=
  ⟨(consume_total_counts_attempts demo ⟨none⟩
      [⟨"A", 1⟩, ⟨"B", 666⟩, ⟨"C", 999⟩, ⟨"D", 4⟩]).1,
   (consume_total_counts_attempts demo ⟨none⟩
      [⟨"A", 1⟩, ⟨"B", 666⟩, ⟨"C", 999⟩, ⟨"D", 4⟩]).2.1,
   (consume_total_counts_attempts demo ⟨none⟩
      [⟨"A", 1⟩, ⟨"B", 666⟩, ⟨"C", 999⟩, ⟨"D", 4⟩]).2.2.2 2 "C" 7 (by decide)⟩

/-- Witness for C10 on a batch with a decode failure at index 1 and the
server-classified push failure at batch index 2: the wrapped index 2 names
the batch position, not the count of attempted pushes. -/
theorem consume_error_index_is_batch_position_witness :
    ∃ (r : record Nat) (e : Nat),
      ([⟨"A", 1⟩, ⟨"B", 666⟩, ⟨"C", 999⟩, ⟨"D", 4⟩] : List (record Nat))[2]? = some r ∧
      (PErr.base 7 : PErr Nat) = PErr.base e ∧ r.tenantID = "C" ∧
      (demo.unmarshal r.content).2 = none ∧
      pushOutcome demo ⟨none⟩ r = some e ∧ demo.isClientError e = false :=
  consume_error_index_is_batch_position demo ⟨none⟩
    [⟨"A", 1⟩, ⟨"B", 666⟩, ⟨"C", 999⟩, ⟨"D", 4⟩] 2 "C" (PErr.base 7) (by decide)

/-! List bookkeeping for the handoff invariant. -/

lemma drop_cons_take {α : Type} :
    ∀ (l : List α) (n : Nat) (r : α) (t : List α),
    l.drop n = r :: t →
    l.take (n + 1) = l.take n ++ [r] ∧ l.drop (n + 1) = t ∧ n < l.length
  | [], n, r, t, h => by simp at h
  | a :: l, 0, r, t, h => by
    simp only [List.drop_zero] at h
    cases h
    simp
  | a :: l, n + 1, r, t, h => by
    simp only [List.drop_succ_cons] at h
    obtain ⟨h1, h2, h3⟩ := drop_cons_take l n r t h
    refine ⟨?_, ?_, by simpa using Nat.succ_lt_succ h3⟩
    · simp [List.take_succ_cons, h1]
    · simpa [List.drop_succ_cons] using h2

lemma take_eq_self_of_drop_nil {α : Type} (l : List α) (n : Nat)
    (h : l.drop n = []) : l.take n = l := by
  have hlen : l.length ≤ n := List.drop_eq_nil_iff.mp h
  exact List.take_of_length_le hlen

/-- The receive loop on a freshly delivered unit: processed only if the
earlier units did not abort, at the record index equal to the number of
earlier units. -/
lemma pushLoop_snoc (c : pusherConsumer Content Payload E) (ctx : Context)
    (l : List (parsedRecord Payload E)) (x : parsedRecord Payload E)
    (s : PusherObs Payload E) :
    pushLoop c ctx (l ++ [x]) 0 s =
      match pushLoop c ctx l 0 s with
      | (some e, s1) => (some e, s1)
      | (none, s1) => pushOne c ctx l.length x s1 := by
  rw [pushLoop_append]
  rcases pushLoop c ctx l 0 s with ⟨res, s1⟩
  cases res with
  | none =>
    dsimp only
    show pushLoop c ctx (x :: []) (0 + l.length) s1 = _
    simp only [pushLoop, Nat.zero_add]
    rcases h : pushOne c ctx l.length x s1 with ⟨r2, s2⟩
    cases r2 <;> rfl
  | some e => rfl

namespace Pipeline

/-- The inductive invariant of the pipeline: the delivered units are the
in-order decode of a prefix of the batch and the decoder holds the rest
(with at most the one unit at the `select` in flight); the pusher's
observables and pending result are exactly the sequential replay of the
delivered units; a pusher that returned nil saw the close after the full
batch; a decoder that closed without cancellation delivered the full batch;
cancellation carries the one descriptive cause and happens only after the
pusher returned; and `consume` has returned only after cancelling. -/
structure Inv (c : pusherConsumer Content Payload E) (ctx : Context)
    (records : List (record Content)) (s : St Content Payload E) : Prop where
  delivered_prefix : ∃ n, n ≤ records.length ∧
    s.delivered = (records.take n).map (unmarshalRecord c) ∧
    (match s.decoder with
     | DecSt.run rest => records.drop n = rest
     | DecSt.offering pr rest =>
        ∃ r, records.drop n = r :: rest ∧ pr = unmarshalRecord c r
     | DecSt.closed => True)
  obs_replay : s.obs = (pushLoop c ctx s.delivered 0 (PusherObs.init Payload E)).2
  pusher_replay : (pushLoop c ctx s.delivered 0 (PusherObs.init Payload E)).1 =
    (match s.pusher with
     | PushCtl.awaiting => none
     | PushCtl.returned res => res)
  returned_none_full : s.pusher = PushCtl.returned none →
    s.decoder = DecSt.closed ∧ s.delivered = records.map (unmarshalRecord c)
  closed_no_cancel : s.decoder = DecSt.closed → s.cancelCause = none →
    s.delivered = records.map (unmarshalRecord c)
  cancel_state : ∀ cause, s.cancelCause = some cause →
    cause = "done consuming records" ∧ ∃ res, s.pusher = PushCtl.returned res
  result_state : ∀ res, s.consumeResult = some res →
    s.pusher = PushCtl.returned res ∧ s.cancelCause = some "done consuming records"

/-- The initial state satisfies the invariant. -/
lemma inv_init (c : pusherConsumer Content Payload E) (ctx : Context)
    (records : List (record Content)) :
    Inv c ctx records (init records) where
  delivered_prefix := ⟨0, Nat.zero_le _, by simp [init], by simp [init]⟩
  obs_replay := rfl
  pusher_replay := rfl
  returned_none_full := by intro h; simp [init] at h
  closed_no_cancel := by intro h; simp [init] at h
  cancel_state := by intro cause h; simp [init] at h
  result_state := by intro res h; simp [init] at h

/-- Every step of the pipeline preserves the invariant. -/
lemma inv_step (c : pusherConsumer Content Payload E) (ctx : Context)
    (records : List (record Content)) {s s2 : St Content Payload E}
    (hinv : Inv c ctx records s) (hstep : Step c ctx s s2) :
    Inv c ctx records s2 := by
  obtain ⟨hdp, hobs, hpr, hrnf, hcnc, hcs, hrs⟩ := hinv
  cases hstep with
  | unmarshalNext r rest hdec =>
    obtain ⟨n, hn, hdel, hmatch⟩ := hdp
    rw [hdec] at hmatch
    refine ⟨⟨n, hn, hdel, ⟨r, hmatch, rfl⟩⟩, hobs, hpr, ?_, ?_, hcs, hrs⟩
    · intro h
      have h2 := (hrnf h).1
      rw [hdec] at h2
      simp at h2
    · intro h
      simp at h
  | closeChannel hdec =>
    obtain ⟨n, hn, hdel, hmatch⟩ := hdp
    rw [hdec] at hmatch
    have hfull : s.delivered = records.map (unmarshalRecord c) := by
      rw [hdel, take_eq_self_of_drop_nil records n hmatch]
    refine ⟨⟨n, hn, hdel, trivial⟩, hobs, hpr, ?_, ?_, hcs, hrs⟩
    · intro h
      exact ⟨rfl, hfull⟩
    · intro _ _
      exact hfull
  | cancelOffer pr rest cause hdec hcause =>
    obtain ⟨n, hn, hdel, hmatch⟩ := hdp
    refine ⟨⟨n, hn, hdel, trivial⟩, hobs, hpr, ?_, ?_, hcs, hrs⟩
    · intro h
      have h2 := (hrnf h).1
      rw [hdec] at h2
      simp at h2
    · intro _ hnone
      rw [hcause] at hnone
      simp at hnone
  | handoff pr rest hdec hpsh =>
    obtain ⟨n, hn, hdel, hmatch⟩ := hdp
    rw [hdec] at hmatch
    obtain ⟨r, hdrop, hpreq⟩ := hmatch
    obtain ⟨htake, hdrop2, hlt⟩ := drop_cons_take records n r rest hdrop
    rw [hpsh] at hpr
    have hsnoc := pushLoop_snoc c ctx s.delivered pr (PusherObs.init Payload E)
    rcases hrep : pushLoop c ctx s.delivered 0 (PusherObs.init Payload E) with ⟨res0, obs0⟩
    rw [hrep] at hpr hsnoc
    simp only at hpr
    subst hpr
    have hobs0 : s.obs = obs0 := by rw [hobs, hrep]
    subst hobs0
    rcases hone : pushOne c ctx s.delivered.length pr s.obs with ⟨res1, obs1⟩
    refine ⟨?_, ?_, ?_, ?_, ?_, ?_, ?_⟩
    · refine ⟨n + 1, hlt, ?_, hdrop2⟩
      rw [htake, List.map_append, ← hdel, hpreq]
      rfl
    · rw [hsnoc]
      dsimp only
      rw [hone]
    · rw [hsnoc]
      dsimp only
      rw [hone]
      cases res1 <;> rfl
    · intro h
      dsimp only at h
      cases res1 <;> simp at h
    · intro h
      simp at h
    · intro cause hc
      obtain ⟨-, res, hres⟩ := hcs cause hc
      rw [hpsh] at hres
      simp at hres
    · intro res hr
      obtain ⟨hpres, -⟩ := hrs res hr
      rw [hpsh] at hpres
      simp at hpres
  | channelClosed hdec hpsh =>
    have hcnone : s.cancelCause = none := by
      rcases hcc : s.cancelCause with _ | cause
      · rfl
      · obtain ⟨-, res, hres⟩ := hcs cause hcc
        rw [hpsh] at hres
        simp at hres
    have hfull := hcnc hdec hcnone
    refine ⟨hdp, hobs, ?_, ?_, ?_, ?_, ?_⟩
    · rw [hpsh] at hpr
      exact hpr
    · intro _
      exact ⟨hdec, hfull⟩
    · intro h1 h2
      exact hfull
    · intro cause hc
      rw [hcnone] at hc
      simp at hc
    · intro res hr
      obtain ⟨-, hcc⟩ := hrs res hr
      rw [hcnone] at hcc
      simp at hcc
  | consumeReturn res hpsh hcr =>
    refine ⟨hdp, hobs, hpr, hrnf, ?_, ?_, ?_⟩
    · intro h1 h2
      simp at h2
    · intro cause hc
      simp only [Option.some.injEq] at hc
      subst hc
      exact ⟨rfl, res, hpsh⟩
    · intro res2 hr
      simp only [Option.some.injEq] at hr
      subst hr
      exact ⟨hpsh, rfl⟩

/-- The invariant holds in every reachable state. -/
lemma inv_reachable (c : pusherConsumer Content Payload E) (ctx : Context)
    (records : List (record Content)) {s : St Content Payload E}
    (h : Reachable c ctx records s) : Inv c ctx records s := by
  induction h with
  | refl => exact inv_init c ctx records
  | tail hsteps hstep ih => exact inv_step c ctx records ih hstep

end Pipeline

namespace Pipeline

/-- Progress: while `consume` has not returned, some step is enabled. -/
lemma progress (c : pusherConsumer Content Payload E) (ctx : Context)
    {s : St Content Payload E} (hres : s.consumeResult = none) :
    ∃ s2 : St Content Payload E, Step c ctx s s2 := by
  rcases hps : s.pusher with _ | res
  · rcases hd : s.decoder with rest | ⟨pr, rest⟩ | _
    · rcases rest with _ | ⟨r, rest⟩
      · exact ⟨_, Step.closeChannel s hd⟩
      · exact ⟨_, Step.unmarshalNext s r rest hd⟩
    · exact ⟨_, Step.handoff s pr rest hd hps⟩
    · exact ⟨_, Step.channelClosed s hd hps⟩
  · exact ⟨_, Step.consumeReturn s res hps hres⟩

/-- In a terminal state `consume` has returned. -/
lemma terminal_result (c : pusherConsumer Content Payload E) (ctx : Context)
    {s : St Content Payload E} (hterm : Terminal c ctx s) :
    s.consumeResult ≠ none := by
  intro hres
  obtain ⟨s2, hstep⟩ := progress c ctx hres
  exact hterm s2 hstep

/-- In a terminal reachable state the decoder has closed the channel. -/
lemma terminal_closed (c : pusherConsumer Content Payload E) (ctx : Context)
    (records : List (record Content)) {s : St Content Payload E}
    (hreach : Reachable c ctx records s) (hterm : Terminal c ctx s) :
    s.decoder = DecSt.closed := by
  have hinv := inv_reachable c ctx records hreach
  rcases hd : s.decoder with rest | ⟨pr, rest⟩ | _
  · rcases rest with _ | ⟨r, rest⟩
    · exact absurd (Step.closeChannel s hd) (hterm _)
    · exact absurd (Step.unmarshalNext s r rest hd) (hterm _)
  · rcases hps : s.pusher with _ | res
    · exact absurd (Step.handoff s pr rest hd hps) (hterm _)
    · rcases hcr : s.consumeResult with _ | res2
      · exact absurd (Step.consumeReturn s res hps hcr) (hterm _)
      · obtain ⟨-, hcc⟩ := hinv.result_state res2 hcr
        exact absurd (Step.cancelOffer s pr rest _ hd hcc) (hterm _)
  · rfl

/-- In a terminal reachable state the derived context has been cancelled
with the one descriptive cause. -/
lemma terminal_cancelled (c : pusherConsumer Content Payload E) (ctx : Context)
    (records : List (record Content)) {s : St Content Payload E}
    (hreach : Reachable c ctx records s) (hterm : Terminal c ctx s) :
    s.cancelCause = some "done consuming records" := by
  have hinv := inv_reachable c ctx records hreach
  rcases hcr : s.consumeResult with _ | res
  · exact absurd hcr (terminal_result c ctx hterm)
  · exact (hinv.result_state res hcr).2

/-- The number of decoded units the decoder holds at the channel offer
point: 1 while blocked at the `select`, 0 otherwise. -/
def inFlight (s : St Content Payload E) : Nat :=
  match s.decoder with
  | DecSt.offering _ _ => 1
  | _ => 0

/-- Units decoded so far: those handed over plus the one in flight. -/
def decodedCount (s : St Content Payload E) : Nat :=
  s.delivered.length + inFlight s

end Pipeline

namespace Pipeline

/-- C6: In every reachable state of a `consume` invocation, the units the
Decoder stage has delivered are exactly one per source record, in source
order (the in-order decode of a prefix of the batch); a decode failure is
recorded on the unit itself (with the tenant id preserved) and never raised;
the Pusher stage completes normally only once the decoder has closed the
channel after delivering the whole batch — the close is its sole normal
termination signal; and on exhausting the batch or observing cancellation
the decoder always ends in the closed state (every terminal state has the
channel closed). -/
theorem decoder_one_unit_per_record
    (c : pusherConsumer Content Payload E) (ctx : Context)
    (records : List (record Content)) {s : St Content Payload E}
    (h : Reachable c ctx records s) :
    (∃ n, n ≤ records.length ∧
      s.delivered = (records.take n).map (unmarshalRecord c)) ∧
    (∀ r : record Content, (unmarshalRecord c r).tenantID = r.tenantID ∧
      ∀ e, (c.unmarshal r.content).2 = some e →
        (unmarshalRecord c r).err =
          some (PErr.wrap "parsing ingest consumer write request" (PErr.base e))) ∧
    (s.pusher = PushCtl.returned none →
      s.decoder = DecSt.closed ∧ s.delivered = records.map (unmarshalRecord c)) ∧
    (Terminal c ctx s → s.decoder = DecSt.closed) := by
  have hinv := inv_reachable c ctx records h
  obtain ⟨n, hn, hdel, -⟩ := hinv.delivered_prefix
  refine ⟨⟨n, hn, hdel⟩, ?_, hinv.returned_none_full, terminal_closed c ctx records h⟩
  intro r
  exact ⟨rfl, fun e he => by simp [unmarshalRecord, he]⟩

/-- C7: On every exit path of `consume` — the only exits being the pusher
returning after normal closure or after a fatal push failure — the derived
context ends cancelled with the descriptive cause "done consuming records"
(every terminal reachable state is cancelled, has a returned result, and has
the decoder closed); once `consume` has returned, the cause is set; after
cancellation the decoder delivers nothing further (it can only stop at its
queue-offer point), and a closed decoder never runs again. -/
theorem consume_cancels_on_every_exit
    (c : pusherConsumer Content Payload E) (ctx : Context)
    (records : List (record Content)) {s : St Content Payload E}
    (h : Reachable c ctx records s) :
    (Terminal c ctx s → s.cancelCause = some "done consuming records" ∧
      s.consumeResult ≠ none ∧ s.decoder = DecSt.closed) ∧
    (∀ res, s.consumeResult = some res →
      s.cancelCause = some "done consuming records") ∧
    (s.cancelCause ≠ none →
      ∀ s2, Step c ctx s s2 → s2.delivered = s.delivered) ∧
    (s.decoder = DecSt.closed →
      ∀ s2, Step c ctx s s2 → s2.decoder = DecSt.closed) := by
  have hinv := inv_reachable c ctx records h
  refine ⟨?_, ?_, ?_, ?_⟩
  · intro hterm
    exact ⟨terminal_cancelled c ctx records h hterm, terminal_result c ctx hterm,
      terminal_closed c ctx records h hterm⟩
  · intro res hres
    exact (hinv.result_state res hres).2
  · intro hne s2 hstep
    cases hstep with
    | unmarshalNext r rest hdec => rfl
    | closeChannel hdec => rfl
    | cancelOffer pr rest cause hdec hcause => rfl
    | handoff pr rest hdec hpsh =>
      rcases hcc : s.cancelCause with _ | cause
      · exact absurd hcc hne
      · obtain ⟨-, res, hres⟩ := hinv.cancel_state cause hcc
        rw [hpsh] at hres
        simp at hres
    | channelClosed hdec hpsh => rfl
    | consumeReturn res hpsh hcr => rfl
  · intro hcl s2 hstep
    cases hstep with
    | unmarshalNext r rest hdec => rw [hcl] at hdec; simp at hdec
    | closeChannel hdec => rfl
    | cancelOffer pr rest cause hdec hcause => rfl
    | handoff pr rest hdec hpsh => rw [hcl] at hdec; simp at hdec
    | channelClosed hdec hpsh => exact hcl
    | consumeReturn res hpsh hcr => exact hcl

/-- C8: In every reachable state of a `consume` invocation there are just
the two tasks of the model — the decoder, holding at most the one unit in
flight at the capacity-zero handoff (`inFlight s ≤ 1`), and the pusher — so
the decoder is at most one unit ahead of what the pusher has consumed
(`decodedCount s ≤ s.delivered.length + 1`); the delivered units are the
in-order decode of a prefix of the batch (no reordering); and the pusher's
observables — including the sink-invocation trace — are exactly the
sequential one-at-a-time replay of the delivered units (no concurrent
pushes). -/
theorem pipeline_depth_one_sequential
    (c : pusherConsumer Content Payload E) (ctx : Context)
    (records : List (record Content)) {s : St Content Payload E}
    (h : Reachable c ctx records s) :
    inFlight s ≤ 1 ∧
    decodedCount s ≤ s.delivered.length + 1 ∧
    (∃ n, n ≤ records.length ∧
      s.delivered = (records.take n).map (unmarshalRecord c)) ∧
    s.obs = (pushLoop c ctx s.delivered 0 (PusherObs.init Payload E)).2 := by
  have hinv := inv_reachable c ctx records h
  obtain ⟨n, hn, hdel, -⟩ := hinv.delivered_prefix
  have hif : inFlight s ≤ 1 := by
    unfold inFlight
    cases s.decoder <;> simp
  refine ⟨hif, ?_, ⟨n, hn, hdel⟩, hinv.obs_replay⟩
  unfold decodedCount
  omega

end Pipeline

/-- The terminal state of a full run of the pipeline on the one-record batch
`[{tenant A, content 1}]` against `demoOk`: unit delivered and pushed,
channel closed, pusher returned nil, derived context cancelled, `consume`
returned nil. -/
def demoFinal : Pipeline.St Nat Nat Nat where
  decoder := Pipeline.DecSt.closed
  pusher := Pipeline.PushCtl.returned none
  obs := { clientErrRequests := 0
           serverErrRequests := 0
           totalRequests := 1
           processingTimeObservations := [10]
           logs := []
           pushes := [(⟨some "A"⟩, 1)] }
  delivered := [{ writeRequest := 1, tenantID := "A", err := none }]
  cancelCause := some "done consuming records"
  consumeResult := some none

/-- `demoFinal` is reached from the start by the five-step run: decode,
rendezvous-and-push, close on exhaustion, pusher sees the close, `consume`
returns (cancelling the derived context). -/
lemma demoReach : Pipeline.Reachable demoOk ⟨none⟩ [⟨"A", 1⟩] demoFinal := by
  refine Relation.ReflTransGen.head (Pipeline.Step.unmarshalNext _ ⟨"A", 1⟩ [] rfl) ?_
  refine Relation.ReflTransGen.head (Pipeline.Step.handoff _ _ [] rfl rfl) ?_
  refine Relation.ReflTransGen.head (Pipeline.Step.closeChannel _ rfl) ?_
  refine Relation.ReflTransGen.head (Pipeline.Step.channelClosed _ rfl rfl) ?_
  refine Relation.ReflTransGen.head (Pipeline.Step.consumeReturn _ none rfl rfl) ?_
  exact Relation.ReflTransGen.refl

/-- Witness for C6 at the end of the concrete run: the pusher returned nil,
so the decoder closed the channel after delivering the decode of the full
batch, one unit per record. -/
theorem decoder_one_unit_per_record_witness :
    demoFinal.decoder = Pipeline.DecSt.closed ∧
    demoFinal.delivered = ([⟨"A", 1⟩] : List (record Nat)).map (unmarshalRecord demoOk) :=
  (Pipeline.decoder_one_unit_per_record demoOk ⟨none⟩ [⟨"A", 1⟩] demoReach).2.2.1 rfl

/-- Witness for C7 at the end of the concrete run: `consume` returned, so
the derived context carries the descriptive cancellation cause. -/
theorem consume_cancels_on_every_exit_witness :
    demoFinal.cancelCause = some "done consuming records" :=
  (Pipeline.consume_cancels_on_every_exit demoOk ⟨none⟩ [⟨"A", 1⟩] demoReach).2.1 none rfl

/-- Witness for C8 at the end of the concrete run: at most one unit in
flight, and the observables equal the sequential replay of the delivered
units. -/
theorem pipeline_depth_one_sequential_witness :
    Pipeline.inFlight demoFinal ≤ 1 ∧
    demoFinal.obs =
      (pushLoop demoOk ⟨none⟩ demoFinal.delivered 0 (PusherObs.init Nat Nat)).2 :=
  ⟨(Pipeline.pipeline_depth_one_sequential demoOk ⟨none⟩ [⟨"A", 1⟩] demoReach).1,
   (Pipeline.pipeline_depth_one_sequential demoOk ⟨none⟩ [⟨"A", 1⟩] demoReach).2.2.2⟩
